import Mathlib

/-!
Verification of the voice-order resolution pipeline of the `ncr-aloha`
repository: the text normalizer and similarity scorer, the catalog matcher
(`MenuMatcher`), the per-line resolver (`OrderBuilder.resolveItem`) and the
order builder (`OrderBuilder.build`).

Modelling conventions:
* JavaScript numbers (prices, scores, the tax rate) are modelled as exact
  rationals `ℚ`; the arithmetic performed by the code is addition,
  multiplication and division only, so every stated equality is exact and in
  particular holds within the 1e-6 tolerance the specification allows.
* Strings are modelled as Lean `String` / `List Char`; `toLowerCase` is
  modelled on the ASCII range (the normalizer discards every character
  outside `[a-z0-9\s]` immediately afterwards).
* Optional/absent JavaScript fields are `Option`; JavaScript truthiness of a
  string field (`""` is falsy) and of a number field (`0` is falsy) is
  modelled explicitly where the source relies on it.
* `Array.prototype.sort` with comparator `(a, b) => b.score - a.score` is a
  stable descending sort by score; it is modelled by `List.insertionSort`
  with the relation `score b ≤ score a`, which is stable and orders by
  descending score, hence computes the same list.
-/

namespace Aloha

/-! ## Data model (src/models/menu.ts and src/models/order.ts) -/

structure MenuItemSize where
  id : String
  name : String
  aliases : List String
  priceAdjustment : ℚ
deriving DecidableEq

structure Modifier where
  id : String
  name : String
  aliases : List String
  price : ℚ
deriving DecidableEq

structure ModifierGroup where
  id : String
  name : String
  required : Bool
  minSelections : Nat
  maxSelections : Nat
  modifiers : List Modifier
deriving DecidableEq

structure MenuItem where
  id : String
  name : String
  aliases : List String
  description : String
  category : String
  basePrice : ℚ
  sizes : Option (List MenuItemSize)
  modifierGroups : Option (List String)
  available : Bool
deriving DecidableEq

structure Menu where
  restaurantId : String
  restaurantName : String
  categories : List String
  items : List MenuItem
  modifierGroups : List ModifierGroup
  updatedAt : String
deriving DecidableEq

inductive OrderType where
  | pickup
  | delivery
  | dineIn
deriving DecidableEq

structure VoiceCustomer where
  name : String
  phone : String
  email : Option String
deriving DecidableEq

structure VoiceDeliveryAddress where
  street : String
  city : String
  postalCode : String
  notes : Option String
deriving DecidableEq

structure VoiceOrderItem where
  itemName : String
  quantity : Option Nat
  size : Option String
  modifiers : Option (List String)
  specialInstructions : Option String
deriving DecidableEq

structure VoiceOrder where
  orderType : OrderType
  items : List VoiceOrderItem
  customer : VoiceCustomer
  deliveryAddress : Option VoiceDeliveryAddress
  specialInstructions : Option String
  scheduledTime : Option String
deriving DecidableEq

/-! ## Text normalizer and similarity scorer (MenuMatcher.normalize / similarity) -/

/-- The character class `\s` of the JavaScript regexes used by `normalize`
(ASCII range). -/
def isWs (c : Char) : Bool :=
  c = ' ' ∨ c = '\t' ∨ c = '\n' ∨ c = '\r' ∨ c = '\x0b' ∨ c = '\x0c'

/-- A character kept by `normalize`'s `replace(/[^a-z0-9\s]/g, "")`. -/
def isKept (c : Char) : Bool :=
  ('a' ≤ c ∧ c ≤ 'z') ∨ ('0' ≤ c ∧ c ≤ '9') ∨ isWs c

/-- `String.prototype.trim`: drop leading and trailing whitespace. -/
def trimWs (l : List Char) : List Char :=
  ((l.dropWhile isWs).reverse.dropWhile isWs).reverse

/-- `MenuMatcher.normalize`: lowercase, strip characters outside
`[a-z0-9\s]`, trim. -/
def normalize (text : String) : List Char :=
  trimWs ((text.data.map Char.toLower).filter isKept)

/-- `str.split(/\s+/)` as applied by `similarity` to already-trimmed
normalized strings: the empty string yields `[""]`, a non-empty trimmed
string yields its maximal runs of non-whitespace characters. -/
def jsSplitWs (l : List Char) : List (List Char) :=
  if l.isEmpty then [[]] else (l.splitOnP isWs).filter (fun w => !w.isEmpty)

/-- `MenuMatcher.similarity`: 1 on equal normalized strings, 0.9 when one
normalized string contains the other, otherwise the Jaccard index of the
whitespace-separated word sets.  (`new Set` deduplicates; only sizes and
membership of the word sets are used, so `List.dedup` models it.) -/
def similarity (a b : String) : ℚ :=
  let aNorm := normalize a
  let bNorm := normalize b
  if aNorm = bNorm then 1
  else if bNorm <:+: aNorm ∨ aNorm <:+: bNorm then 9/10
  else
    let aWords := (jsSplitWs aNorm).dedup
    let bWords := (jsSplitWs bNorm).dedup
    let inter := aWords.filter (fun w => decide (w ∈ bWords))
    let union := (aWords ++ bWords).dedup
    (inter.length : ℚ) / (union.length : ℚ)

/-! ### C6 helper lemmas -/

lemma inter_length_le_union_length (aW bW : List (List Char))
    (ha : aW.Nodup) :
    (aW.filter (fun w => decide (w ∈ bW))).length ≤ ((aW ++ bW).dedup).length := by
  apply List.Subperm.length_le
  apply List.subperm_of_subset (ha.filter _)
  intro x hx
  rw [List.mem_dedup, List.mem_append]
  exact Or.inl (List.mem_of_mem_filter hx)

lemma filter_mem_perm_comm (aW bW : List (List Char))
    (ha : aW.Nodup) (hb : bW.Nodup) :
    (aW.filter (fun w => decide (w ∈ bW))).Perm
      (bW.filter (fun w => decide (w ∈ aW))) := by
  rw [List.perm_ext_iff_of_nodup (ha.filter _) (hb.filter _)]
  intro x
  simp only [List.mem_filter, decide_eq_true_eq]
  tauto

lemma dedup_append_perm_comm (aW bW : List (List Char)) :
    ((aW ++ bW).dedup).Perm ((bW ++ aW).dedup) := by
  rw [List.perm_ext_iff_of_nodup (List.nodup_dedup _) (List.nodup_dedup _)]
  intro x
  simp only [List.mem_dedup, List.mem_append]
  tauto

/-- C6: `similarity` takes values in `[0, 1]`, is `1` on the diagonal, and is
symmetric in its two arguments. -/
theorem similarity_range_refl_symm (a b : String) :
    0 ≤ similarity a b ∧ similarity a b ≤ 1 ∧
    similarity a a = 1 ∧ similarity a b = similarity b a := by
  refine ⟨?_, ?_, ?_, ?_⟩
  · unfold similarity
    dsimp only
    split
    · norm_num
    · split
      · norm_num
      · positivity
  · unfold similarity
    dsimp only
    split
    · norm_num
    · split
      · norm_num
      · rcases Nat.eq_zero_or_pos (((jsSplitWs (normalize a)).dedup ++
          (jsSplitWs (normalize b)).dedup).dedup).length with h0 | hpos
        · rw [h0]
          norm_num
        · rw [div_le_one (by exact_mod_cast hpos)]
          exact_mod_cast inter_length_le_union_length _ _ (List.nodup_dedup _)
  · unfold similarity
    simp
  · unfold similarity
    dsimp only
    by_cases heq : normalize a = normalize b
    · rw [if_pos heq, if_pos heq.symm]
    · have heq' : ¬ normalize b = normalize a := fun h => heq h.symm
      rw [if_neg heq, if_neg heq']
      by_cases hinf : normalize b <:+: normalize a ∨ normalize a <:+: normalize b
      · have hinf' : normalize a <:+: normalize b ∨ normalize b <:+: normalize a :=
          Or.symm hinf
        rw [if_pos hinf, if_pos hinf']
      · have hinf' : ¬ (normalize a <:+: normalize b ∨ normalize b <:+: normalize a) :=
          fun h => hinf (Or.symm h)
        rw [if_neg hinf, if_neg hinf']
        have h1 := (filter_mem_perm_comm (jsSplitWs (normalize a)).dedup
          (jsSplitWs (normalize b)).dedup (List.nodup_dedup _)
          (List.nodup_dedup _)).length_eq
        have h2 := (dedup_append_perm_comm (jsSplitWs (normalize a)).dedup
          (jsSplitWs (normalize b)).dedup).length_eq
        rw [h1, h2]

/-! ## Stable descending sort (model of `.sort((a, b) => b.score - a.score)`)

`Array.prototype.sort` is stable and the comparator orders by descending
score, so the result is the stable descending sort by score, which
`List.insertionSort` with the relation `score b ≤ score a` computes. -/

variable {α : Type}

/-- Stable descending sort by a score projection. -/
def sortByScoreDesc (score : α → ℚ) (l : List α) : List α :=
  l.insertionSort (fun x y => score y ≤ score x)

/-- The first element of maximal score, scanning left to right with an
accumulator (replaced only on a strictly larger score). -/
def firstMaxAcc (score : α → ℚ) : α → List α → α
  | c, [] => c
  | c, d :: ds => firstMaxAcc score (if score c < score d then d else c) ds

lemma orderedInsert_head_nil (score : α → ℚ) (c : α) :
    (List.orderedInsert (fun x y => score y ≤ score x) c []).head? = some c := rfl

lemma orderedInsert_head_cons (score : α → ℚ) (c e : α) (L : List α) :
    (List.orderedInsert (fun x y => score y ≤ score x) c (e :: L)).head? =
      some (if score e ≤ score c then c else e) := by
  simp only [List.orderedInsert]
  split_ifs <;> rfl

lemma orderedInsert_head_key (score : α → ℚ) (c d : α) (L : List α) :
    (List.orderedInsert (fun x y => score y ≤ score x) c
      (List.orderedInsert (fun x y => score y ≤ score x) d L)).head? =
    (List.orderedInsert (fun x y => score y ≤ score x)
      (if score c < score d then d else c) L).head? := by
  cases L with
  | nil =>
    have h1 : List.orderedInsert (fun x y => score y ≤ score x) d [] = [d] := rfl
    rw [h1, orderedInsert_head_cons score]
    by_cases hcd : score c < score d
    · rw [if_pos hcd, orderedInsert_head_nil score]
      rw [if_neg (not_le.mpr hcd)]
    · rw [if_neg hcd, orderedInsert_head_nil score]
      rw [if_pos (le_of_not_lt hcd)]
  | cons e es =>
    by_cases hed : score e ≤ score d
    · have h1 : List.orderedInsert (fun x y => score y ≤ score x) d (e :: es) =
          d :: e :: es := by
        simp only [List.orderedInsert]
        rw [if_pos hed]
      rw [h1, orderedInsert_head_cons score, orderedInsert_head_cons score]
      split_ifs <;> first | rfl | (exfalso; linarith)
    · have h1 : List.orderedInsert (fun x y => score y ≤ score x) d (e :: es) =
          e :: List.orderedInsert (fun x y => score y ≤ score x) d es := by
        simp only [List.orderedInsert]
        rw [if_neg hed]
      rw [h1, orderedInsert_head_cons score, orderedInsert_head_cons score]
      split_ifs <;> first | rfl | (exfalso; linarith)

lemma insertionSort_head (score : α → ℚ) (c : α) (l : List α) :
    (List.insertionSort (fun x y => score y ≤ score x) (c :: l)).head? =
      some (firstMaxAcc score c l) := by
  induction l generalizing c with
  | nil => rfl
  | cons d ds ih =>
    have h1 : List.insertionSort (fun x y => score y ≤ score x) (c :: d :: ds) =
        List.orderedInsert (fun x y => score y ≤ score x) c
          (List.orderedInsert (fun x y => score y ≤ score x) d
            (List.insertionSort (fun x y => score y ≤ score x) ds)) := rfl
    rw [h1, orderedInsert_head_key]
    exact ih (if score c < score d then d else c)

lemma sortByScoreDesc_head (score : α → ℚ) (c : α) (l : List α) :
    (sortByScoreDesc score (c :: l)).head? = some (firstMaxAcc score c l) :=
  insertionSort_head score c l

lemma sortByScoreDesc_perm (score : α → ℚ) (l : List α) :
    (sortByScoreDesc score l).Perm l :=
  List.perm_insertionSort _ l

lemma mem_sortByScoreDesc (score : α → ℚ) {l : List α} {x : α} :
    x ∈ sortByScoreDesc score l ↔ x ∈ l :=
  (sortByScoreDesc_perm score l).mem_iff

lemma sortByScoreDesc_length (score : α → ℚ) (l : List α) :
    (sortByScoreDesc score l).length = l.length :=
  (sortByScoreDesc_perm score l).length_eq

lemma firstMaxAcc_mem (score : α → ℚ) (c : α) (l : List α) :
    firstMaxAcc score c l ∈ c :: l := by
  induction l generalizing c with
  | nil => simp [firstMaxAcc]
  | cons d ds ih =>
    simp only [firstMaxAcc]
    by_cases hcd : score c < score d
    · rw [if_pos hcd]
      exact List.mem_cons_of_mem c (ih d)
    · rw [if_neg hcd]
      rcases List.mem_cons.mp (ih c) with h | h
      · rw [h]
        exact List.mem_cons_self c _
      · exact List.mem_cons_of_mem c (List.mem_cons_of_mem d h)

lemma le_firstMaxAcc (score : α → ℚ) (c : α) (l : List α) :
    score c ≤ score (firstMaxAcc score c l) ∧
      ∀ x ∈ l, score x ≤ score (firstMaxAcc score c l) := by
  induction l generalizing c with
  | nil => simp [firstMaxAcc]
  | cons d ds ih =>
    simp only [firstMaxAcc]
    by_cases hcd : score c < score d
    · rw [if_pos hcd]
      obtain ⟨h1, h2⟩ := ih d
      refine ⟨le_trans (le_of_lt hcd) h1, ?_⟩
      intro x hx
      rcases List.mem_cons.mp hx with rfl | hx'
      · exact h1
      · exact h2 x hx'
    · rw [if_neg hcd]
      obtain ⟨h1, h2⟩ := ih c
      refine ⟨h1, ?_⟩
      intro x hx
      rcases List.mem_cons.mp hx with rfl | hx'
      · exact le_trans (le_of_not_lt hcd) h1
      · exact h2 x hx'

lemma firstMaxAcc_first (score : α → ℚ) (c : α) (l : List α) :
    ∃ pre post, c :: l = pre ++ firstMaxAcc score c l :: post ∧
      ∀ x ∈ pre, score x < score (firstMaxAcc score c l) := by
  induction l generalizing c with
  | nil => exact ⟨[], [], rfl, by simp⟩
  | cons d ds ih =>
    simp only [firstMaxAcc]
    by_cases hcd : score c < score d
    · rw [if_pos hcd]
      obtain ⟨pre, post, hsplit, hlt⟩ := ih d
      refine ⟨c :: pre, post, by rw [List.cons_append, ← hsplit], ?_⟩
      intro x hx
      rcases List.mem_cons.mp hx with rfl | hx'
      · exact lt_of_lt_of_le hcd (le_firstMaxAcc score d ds).1
      · exact hlt x hx'
    · rw [if_neg hcd]
      obtain ⟨pre, post, hsplit, hlt⟩ := ih c
      cases pre with
      | nil =>
        simp only [List.nil_append, List.cons.injEq] at hsplit
        exact ⟨[], d :: ds, by rw [List.nil_append, ← hsplit.1], by simp⟩
      | cons p ps =>
        rw [List.cons_append] at hsplit
        have h1 : c = p ∧ ds = ps ++ firstMaxAcc score c ds :: post := by
          simpa using hsplit
        have hpfm : score p < score (firstMaxAcc score c ds) :=
          hlt p (List.mem_cons_self p ps)
        refine ⟨c :: d :: ps, post, ?_, ?_⟩
        · simp only [List.cons_append]
          rw [← h1.2]
        · intro x hx
          rcases List.mem_cons.mp hx with rfl | hx'
          · exact lt_of_le_of_lt (le_of_eq (congrArg score h1.1)) hpfm
          · rcases List.mem_cons.mp hx' with rfl | hx''
            · exact lt_of_le_of_lt
                (le_trans (le_of_not_lt hcd) (le_of_eq (congrArg score h1.1))) hpfm
            · exact hlt x (List.mem_cons_of_mem p hx'')

lemma firstMaxAcc_of_all_le (score : α → ℚ) (c : α) (l : List α)
    (h : ∀ x ∈ l, score x ≤ score c) : firstMaxAcc score c l = c := by
  induction l generalizing c with
  | nil => rfl
  | cons d ds ih =>
    simp only [firstMaxAcc]
    rw [if_neg (not_lt.mpr (h d (List.mem_cons_self d ds)))]
    exact ih c (fun x hx => h x (List.mem_cons_of_mem d hx))

/-! ## Catalog matcher (MenuMatcher) -/

/-- Result of a matcher query.  The source field `match` is a Lean keyword,
so it is called `matched` here. -/
structure MatchResult (α : Type) where
  matched : Option α
  confidence : ℚ
  alternatives : List α
deriving DecidableEq

/-- Best score of spoken text against a name and its aliases: start from the
name's similarity and keep any strictly larger alias similarity. -/
def bestScoreOf (spokenText name : String) (aliases : List String) : ℚ :=
  aliases.foldl
    (fun best al =>
      if best < similarity spokenText al then similarity spokenText al else best)
    (similarity spokenText name)

def itemScore (spokenText : String) (item : MenuItem) : ℚ :=
  bestScoreOf spokenText item.name item.aliases

def sizeScore (spokenText : String) (sz : MenuItemSize) : ℚ :=
  bestScoreOf spokenText sz.name sz.aliases

def modifierScore (spokenText : String) (m : Modifier) : ℚ :=
  bestScoreOf spokenText m.name m.aliases

structure ItemCandidate where
  item : MenuItem
  score : ℚ
deriving DecidableEq

structure SizeCandidate where
  size : MenuItemSize
  score : ℚ
deriving DecidableEq

structure ModifierCandidate where
  modifier : Modifier
  score : ℚ
deriving DecidableEq

/-- The candidate list built by `findItem`: available items whose best score
exceeds 0.3, in menu order. -/
def itemCandidates (menu : Menu) (spokenText : String) : List ItemCandidate :=
  menu.items.filterMap (fun item =>
    if item.available then
      if 3/10 < itemScore spokenText item then
        some ⟨item, itemScore spokenText item⟩
      else none
    else none)

/-- `MenuMatcher.findItem`. -/
def findItem (menu : Menu) (spokenText : String) : MatchResult MenuItem :=
  match sortByScoreDesc ItemCandidate.score (itemCandidates menu spokenText) with
  | [] => ⟨none, 0, []⟩
  | c :: rest => ⟨some c.item, c.score, (rest.take 3).map ItemCandidate.item⟩

/-- `MenuMatcher.findSize`. -/
def findSize (spokenText : String) (item : MenuItem) : MatchResult MenuItemSize :=
  match item.sizes with
  | none => ⟨none, 1, []⟩
  | some szs =>
    if szs.isEmpty then ⟨none, 1, []⟩
    else
      match sortByScoreDesc SizeCandidate.score
          (szs.map fun sz => SizeCandidate.mk sz (sizeScore spokenText sz)) with
      | [] => ⟨none, 1, []⟩   -- unreachable: szs is non-empty
      | c :: rest => ⟨some c.size, c.score, rest.map SizeCandidate.size⟩

/-- `MenuMatcher.getModifierGroup`. -/
def getModifierGroup (menu : Menu) (groupId : String) : Option ModifierGroup :=
  menu.modifierGroups.find? (fun g => g.id == groupId)

/-- `MenuMatcher.findModifier`. -/
def findModifier (menu : Menu) (spokenText groupId : String) : MatchResult Modifier :=
  match getModifierGroup menu groupId with
  | none => ⟨none, 0, []⟩
  | some group =>
    match sortByScoreDesc ModifierCandidate.score
        (group.modifiers.filterMap fun m =>
          if 3/10 < modifierScore spokenText m then
            some (ModifierCandidate.mk m (modifierScore spokenText m))
          else none) with
    | [] => ⟨none, 0, []⟩
    | c :: rest => ⟨some c.modifier, c.score, (rest.take 3).map ModifierCandidate.modifier⟩

structure ModifierMatch where
  groupId : String
  modifier : Modifier
  confidence : ℚ
deriving DecidableEq

/-- The inner loop of `MenuMatcher.findModifiers` for one spoken phrase:
try each candidate group in order, accept the first whose match has
confidence above 0.5 (`break`), otherwise keep trying. -/
def tryGroupsFirstFit (menu : Menu) (text : String) : List String → Option ModifierMatch
  | [] => none
  | gid :: gids =>
    match (findModifier menu text gid).matched with
    | some md =>
      if 1/2 < (findModifier menu text gid).confidence then
        some ⟨gid, md, (findModifier menu text gid).confidence⟩
      else tryGroupsFirstFit menu text gids
    | none => tryGroupsFirstFit menu text gids

/-- `MenuMatcher.findModifiers`: outer loop over the spoken phrases,
appending one accepted match per phrase at most. -/
def findModifiers (menu : Menu) (texts groupIds : List String) : List ModifierMatch :=
  texts.foldl (fun results text => results ++ (tryGroupsFirstFit menu text groupIds).toList) []

/-! ## Order document model (src/models/order.ts, the fields the builder
populates) -/

structure OrderNote where
  type : String
  value : String
deriving DecidableEq

structure PriceModifier where
  amount : ℚ
  description : String
deriving DecidableEq

structure ProductId where
  type : String
  value : String
deriving DecidableEq

structure OrderQuantity where
  value : Nat
  unitOfMeasure : String
deriving DecidableEq

structure OrderLine where
  productId : ProductId
  description : String
  quantity : OrderQuantity
  unitPrice : ℚ
  extendedAmount : ℚ
  notes : Option (List OrderNote)
  priceModifiers : List PriceModifier
deriving DecidableEq

structure Customer where
  name : String
  phone : String
  email : Option String
deriving DecidableEq

structure Address where
  line1 : String
  city : String
  postalCode : String
  state : String
  country : String
  notes : Option String
deriving DecidableEq

structure Fulfillment where
  type : String
  address : Option Address
deriving DecidableEq

structure TaxEntry where
  amount : ℚ
  code : String
  percentage : ℚ
  isIncluded : Bool
deriving DecidableEq

structure TotalEntry where
  type : String
  value : ℚ
deriving DecidableEq

structure CreateOrderRequest where
  status : String
  channel : String
  currency : String
  customer : Customer
  fulfillment : Fulfillment
  orderLines : List OrderLine
  comments : Option String
  owner : String
  taxes : List TaxEntry
  totals : List TotalEntry
deriving DecidableEq

/-! ## Order builder (OrderBuilder.resolveItem / OrderBuilder.build) -/

structure ResolvedModifier where
  id : String
  name : String
  price : ℚ
deriving DecidableEq

structure ResolvedItem where
  menuItemId : String
  menuItemName : String
  sizeId : Option String
  sizeName : Option String
  quantity : Nat
  unitPrice : ℚ
  modifiers : List ResolvedModifier
  specialInstructions : Option String
deriving DecidableEq

structure ResolveResult where
  resolved : Option ResolvedItem
  errors : List String
  warnings : List String
deriving DecidableEq

structure OrderBuildResult where
  success : Bool
  order : Option CreateOrderRequest
  errors : List String
  warnings : List String
deriving DecidableEq

/-- JavaScript truthiness of an optional string field (`undefined` and `""`
are falsy). -/
def strTruthy : Option String → Bool
  | none => false
  | some s => !s.isEmpty

/-- `voiceItem.quantity || 1` (`undefined` and `0` are falsy). -/
def qtyOrOne : Option Nat → Nat
  | none => 1
  | some 0 => 1
  | some (n+1) => n+1

/-- `Math.round` (round half toward positive infinity). -/
def jsRound (q : ℚ) : ℤ := ⌊q + 1/2⌋

def notFoundMsg (itemName : String) : String :=
  "Could not find menu item: \"" ++ itemName ++ "\""

def lowConfidenceMsg (spoken matchedName : String) (confidence : ℚ) : String :=
  "Low confidence match for \"" ++ spoken ++ "\" -> \"" ++ matchedName ++ "\" (" ++
    toString (jsRound (confidence * 100)) ++ "%)"

def sizeNotFoundMsg (sizeText itemName : String) : String :=
  "Size \"" ++ sizeText ++ "\" not found for " ++ itemName ++ ", using default"

def requiredGroupMsg (groupName itemName : String) : String :=
  "Required modifier group \"" ++ groupName ++ "\" not specified for " ++ itemName

structure SizeResolution where
  sizeId : Option String
  sizeName : Option String
  adjustment : ℚ
  warnings : List String
deriving DecidableEq

/-- The size-resolution block of `resolveItem`: runs when
`voiceItem.size && menuItem.sizes && menuItem.sizes.length > 0` (then
branch, with fallback to the first size when `findSize` yields no match) or
`menuItem.sizes && menuItem.sizes.length > 0` (default-size branch). -/
def resolveSizePart (v : VoiceOrderItem) (menuItem : MenuItem) : SizeResolution :=
  match menuItem.sizes with
  | some (sz0 :: _) =>
    if strTruthy v.size then
      match (findSize (v.size.getD "") menuItem).matched with
      | some sz => ⟨some sz.id, some sz.name, sz.priceAdjustment, []⟩
      | none =>
        ⟨some sz0.id, some sz0.name, sz0.priceAdjustment,
          [sizeNotFoundMsg (v.size.getD "") menuItem.name]⟩
    else ⟨some sz0.id, some sz0.name, sz0.priceAdjustment, []⟩
  | _ => ⟨none, none, 0, []⟩

/-- The accepted modifier matches of `resolveItem`: `findModifiers` runs only
when `voiceItem.modifiers && menuItem.modifierGroups` (an empty array is
truthy in JavaScript, an absent field is falsy). -/
def modifierMatchesOf (menu : Menu) (v : VoiceOrderItem) (menuItem : MenuItem) :
    List ModifierMatch :=
  match v.modifiers, menuItem.modifierGroups with
  | some texts, some groupIds => findModifiers menu texts groupIds
  | _, _ => []

/-- The required-modifier-group warnings of `resolveItem` (emitted inside the
modifier block only). -/
def requiredGroupWarnings (menu : Menu) (menuItem : MenuItem)
    (accepted : List ModifierMatch) (groupIds : List String) : List String :=
  groupIds.filterMap (fun gid =>
    match getModifierGroup menu gid with
    | some g =>
      if g.required then
        if accepted.any (fun m => m.groupId == gid) then none
        else some (requiredGroupMsg g.name menuItem.name)
      else none
    | none => none)

/-- `OrderBuilder.resolveItem`. -/
def resolveItem (menu : Menu) (voiceItem : VoiceOrderItem) : ResolveResult :=
  let itemMatch := findItem menu voiceItem.itemName
  match itemMatch.matched with
  | none => ⟨none, [notFoundMsg voiceItem.itemName], []⟩
  | some menuItem =>
    let confWarnings :=
      if itemMatch.confidence < 7/10 then
        [lowConfidenceMsg voiceItem.itemName menuItem.name itemMatch.confidence]
      else []
    let sizePart := resolveSizePart voiceItem menuItem
    let modMatches := modifierMatchesOf menu voiceItem menuItem
    let resolvedModifiers := modMatches.map fun m =>
      ResolvedModifier.mk m.modifier.id m.modifier.name m.modifier.price
    let unitPrice := modMatches.foldl (fun p m => p + m.modifier.price)
      (menuItem.basePrice + sizePart.adjustment)
    let reqWarnings :=
      match voiceItem.modifiers, menuItem.modifierGroups with
      | some _, some groupIds => requiredGroupWarnings menu menuItem modMatches groupIds
      | _, _ => []
    ⟨some ⟨menuItem.id, menuItem.name, sizePart.sizeId, sizePart.sizeName,
        qtyOrOne voiceItem.quantity, unitPrice, resolvedModifiers,
        voiceItem.specialInstructions⟩,
      [], confWarnings ++ sizePart.warnings ++ reqWarnings⟩

/-- The `orderType` → fulfillment-type mapping of `build`. -/
def fulfillmentType : OrderType → String
  | OrderType.pickup => "Pickup"
  | OrderType.delivery => "Delivery"
  | OrderType.dineIn => "DineIn"

/-- One order line of `build`, from one resolved item. -/
def buildLine (item : ResolvedItem) : OrderLine :=
  let notes :=
    (if item.modifiers.isEmpty then []
     else [OrderNote.mk "Preferences"
        (String.intercalate ", " (item.modifiers.map ResolvedModifier.name))]) ++
    (if strTruthy item.specialInstructions then
        [OrderNote.mk "Other" (item.specialInstructions.getD "")]
     else [])
  { productId := ⟨"SKU",
      if strTruthy item.sizeId then item.menuItemId ++ "-" ++ item.sizeId.getD ""
      else item.menuItemId⟩,
    description :=
      if strTruthy item.sizeName then
        item.menuItemName ++ " (" ++ item.sizeName.getD "" ++ ")"
      else item.menuItemName,
    quantity := ⟨item.quantity, "EA"⟩,
    unitPrice := item.unitPrice,
    extendedAmount := item.unitPrice * (item.quantity : ℚ),
    notes := if notes.isEmpty then none else some notes,
    priceModifiers := (item.modifiers.filter (fun m => 0 < m.price)).map fun m =>
      PriceModifier.mk m.price m.name }

/-! `OrderBuilder.build`, with its local bindings lifted to top-level
definitions (the `let`s of the source in order: the per-item resolution
results, the concatenated errors and warnings, the successfully resolved
items, customer, fulfillment, order lines, subtotal, tax, totals). -/

def buildResults (menu : Menu) (voiceOrder : VoiceOrder) : List ResolveResult :=
  voiceOrder.items.map (resolveItem menu)

def buildErrors (menu : Menu) (voiceOrder : VoiceOrder) : List String :=
  ((buildResults menu voiceOrder).map ResolveResult.errors).flatten

def buildWarnings (menu : Menu) (voiceOrder : VoiceOrder) : List String :=
  ((buildResults menu voiceOrder).map ResolveResult.warnings).flatten

def resolvedItemsOf (menu : Menu) (voiceOrder : VoiceOrder) : List ResolvedItem :=
  (buildResults menu voiceOrder).filterMap ResolveResult.resolved

def buildCustomer (voiceOrder : VoiceOrder) : Customer :=
  Customer.mk voiceOrder.customer.name voiceOrder.customer.phone voiceOrder.customer.email

def buildFulfillment (voiceOrder : VoiceOrder) : Fulfillment :=
  ⟨fulfillmentType voiceOrder.orderType,
    match voiceOrder.orderType, voiceOrder.deliveryAddress with
    | OrderType.delivery, some addr =>
      some ⟨addr.street, addr.city, addr.postalCode, "", "Canada", addr.notes⟩
    | _, _ => none⟩

def buildOrderLines (menu : Menu) (voiceOrder : VoiceOrder) : List OrderLine :=
  (resolvedItemsOf menu voiceOrder).map buildLine

def buildSubtotal (menu : Menu) (voiceOrder : VoiceOrder) : ℚ :=
  (buildOrderLines menu voiceOrder).foldl (fun sum line => sum + line.extendedAmount) 0

/-- The fixed regional tax rate hard-coded in `build` (Ontario HST). -/
def taxRate : ℚ := 13/100

def buildTaxAmount (menu : Menu) (voiceOrder : VoiceOrder) : ℚ :=
  buildSubtotal menu voiceOrder * taxRate

/-- The order document of `build`'s success branch. -/
def builtOrder (menu : Menu) (voiceOrder : VoiceOrder) : CreateOrderRequest :=
  { status := "OrderPlaced", channel := "PhoneIn", currency := "CAD",
    customer := buildCustomer voiceOrder,
    fulfillment := buildFulfillment voiceOrder,
    orderLines := buildOrderLines menu voiceOrder,
    comments := voiceOrder.specialInstructions,
    owner := menu.restaurantName,
    taxes := [⟨buildTaxAmount menu voiceOrder, "HST", taxRate * 100, false⟩],
    totals := [⟨"TaxExcluded", buildSubtotal menu voiceOrder⟩,
      ⟨"Net", buildSubtotal menu voiceOrder + buildTaxAmount menu voiceOrder⟩] }

/-- `OrderBuilder.build`. -/
def build (menu : Menu) (voiceOrder : VoiceOrder) : OrderBuildResult :=
  if (resolvedItemsOf menu voiceOrder).isEmpty then
    ⟨false, none, buildErrors menu voiceOrder ++ ["No valid items in order"],
      buildWarnings menu voiceOrder⟩
  else
    ⟨true, some (builtOrder menu voiceOrder), buildErrors menu voiceOrder,
      buildWarnings menu voiceOrder⟩

/-! ## Support lemmas about the sorted candidate lists -/

lemma sortByScoreDesc_nil (score : α → ℚ) : sortByScoreDesc score [] = [] := rfl

lemma sortByScoreDesc_eq_nil {score : α → ℚ} {l : List α}
    (h : sortByScoreDesc score l = []) : l = [] := by
  have hlen := sortByScoreDesc_length score l
  rw [h] at hlen
  exact List.length_eq_zero.mp hlen.symm

lemma sortByScoreDesc_head_max {score : α → ℚ} {l : List α} {c : α} {rest : List α}
    (h : sortByScoreDesc score l = c :: rest) :
    c ∈ l ∧ ∀ x ∈ l, score x ≤ score c := by
  cases l with
  | nil => simp [sortByScoreDesc_nil] at h
  | cons c0 cs =>
    have hh := sortByScoreDesc_head score c0 cs
    rw [h] at hh
    have hc : c = firstMaxAcc score c0 cs := by simpa using hh
    constructor
    · rw [hc]
      exact firstMaxAcc_mem score c0 cs
    · intro x hx
      rw [hc]
      rcases List.mem_cons.mp hx with rfl | hx'
      · exact (le_firstMaxAcc score x cs).1
      · exact (le_firstMaxAcc score c0 cs).2 x hx'

lemma sortByScoreDesc_head_first {score : α → ℚ} {l : List α} {c : α} {rest : List α}
    (h : sortByScoreDesc score l = c :: rest) :
    ∃ pre post, l = pre ++ c :: post ∧ ∀ x ∈ pre, score x < score c := by
  cases l with
  | nil => simp [sortByScoreDesc_nil] at h
  | cons c0 cs =>
    have hh := sortByScoreDesc_head score c0 cs
    rw [h] at hh
    have hc : c = firstMaxAcc score c0 cs := by simpa using hh
    rw [hc]
    exact firstMaxAcc_first score c0 cs

lemma mem_of_mem_sorted_tail {score : α → ℚ} {l : List α} {c x : α} {rest : List α}
    (h : sortByScoreDesc score l = c :: rest) (hx : x ∈ rest) : x ∈ l := by
  have : x ∈ sortByScoreDesc score l := by
    rw [h]
    exact List.mem_cons_of_mem c hx
  exact (mem_sortByScoreDesc score).mp this

lemma mem_itemCandidates {menu : Menu} {s : String} {c : ItemCandidate} :
    c ∈ itemCandidates menu s ↔
      c.item ∈ menu.items ∧ c.item.available = true ∧
        c.score = itemScore s c.item ∧ 3/10 < c.score := by
  unfold itemCandidates
  rw [List.mem_filterMap]
  constructor
  · rintro ⟨item, hmem, hf⟩
    by_cases ha : item.available
    · rw [if_pos ha] at hf
      by_cases hs : (3 : ℚ)/10 < itemScore s item
      · rw [if_pos hs] at hf
        have hc := Option.some.inj hf
        rw [← hc]
        exact ⟨hmem, ha, rfl, hs⟩
      · rw [if_neg hs] at hf
        exact absurd hf (Option.noConfusion)
    · rw [if_neg ha] at hf
      exact absurd hf (Option.noConfusion)
  · rintro ⟨hmem, ha, hsc, hthr⟩
    refine ⟨c.item, hmem, ?_⟩
    rw [if_pos ha, if_pos (hsc ▸ hthr)]
    cases c with
    | mk item score => simp only at hsc ⊢; rw [hsc]

lemma filterMap_eq_append_cons {β γ : Type} (f : β → Option γ) :
    ∀ (l : List β) (p : List γ) (b : γ) (q : List γ),
      l.filterMap f = p ++ b :: q →
      ∃ l₁ a l₂, l = l₁ ++ a :: l₂ ∧ l₁.filterMap f = p ∧ f a = some b := by
  intro l
  induction l with
  | nil =>
    intro p b q h
    simp at h
  | cons x xs ih =>
    intro p b q h
    cases hx : f x with
    | none =>
      rw [List.filterMap_cons_none hx] at h
      obtain ⟨l₁, a, l₂, hl, hp, ha⟩ := ih p b q h
      exact ⟨x :: l₁, a, l₂, by rw [hl, List.cons_append],
        by rw [List.filterMap_cons_none hx, hp], ha⟩
    | some y =>
      rw [List.filterMap_cons_some hx] at h
      cases p with
      | nil =>
        simp only [List.nil_append, List.cons.injEq] at h
        exact ⟨[], x, xs, rfl, rfl, by rw [hx, h.1]⟩
      | cons z p' =>
        simp only [List.cons_append, List.cons.injEq] at h
        obtain ⟨hy, h2⟩ := h
        obtain ⟨l₁, a, l₂, hl, hp, ha⟩ := ih p' b q h2
        exact ⟨x :: l₁, a, l₂, by rw [hl, List.cons_append],
          by rw [List.filterMap_cons_some hx, hp, hy], ha⟩

lemma findItem_eq_of_sorted_nil {menu : Menu} {s : String}
    (h : sortByScoreDesc ItemCandidate.score (itemCandidates menu s) = []) :
    findItem menu s = ⟨none, 0, []⟩ := by
  unfold findItem
  rw [h]

lemma findItem_eq_of_sorted_cons {menu : Menu} {s : String} {c : ItemCandidate}
    {rest : List ItemCandidate}
    (h : sortByScoreDesc ItemCandidate.score (itemCandidates menu s) = c :: rest) :
    findItem menu s = ⟨some c.item, c.score, (rest.take 3).map ItemCandidate.item⟩ := by
  unfold findItem
  rw [h]

/-- C2: `findItem` scores only available items, excludes best scores ≤ 0.3,
returns the highest-scoring candidate (first in menu order on ties) as the
match with its score as the confidence (hence never a confidence ≤ 0.3),
up to 3 further candidates as alternatives, and `match: none, confidence: 0`
when no candidate clears the threshold. -/
theorem findItem_spec (menu : Menu) (s : String) :
    ((∀ it ∈ menu.items, it.available = true → itemScore s it ≤ 3/10) →
      findItem menu s = ⟨none, 0, []⟩) ∧
    (∀ it, (findItem menu s).matched = some it →
      it ∈ menu.items ∧ it.available = true ∧
      (findItem menu s).confidence = itemScore s it ∧
      3/10 < (findItem menu s).confidence ∧
      (∀ it' ∈ menu.items, it'.available = true →
        itemScore s it' ≤ (findItem menu s).confidence) ∧
      (∃ pre post, menu.items = pre ++ it :: post ∧
        ∀ it' ∈ pre, it'.available = true →
          itemScore s it' < (findItem menu s).confidence) ∧
      (findItem menu s).alternatives.length ≤ 3 ∧
      (∀ alt ∈ (findItem menu s).alternatives, alt ∈ menu.items ∧
        alt.available = true ∧ 3/10 < itemScore s alt ∧
        itemScore s alt ≤ (findItem menu s).confidence)) := by
  constructor
  · intro hall
    have hcand : itemCandidates menu s = [] := by
      unfold itemCandidates
      rw [List.filterMap_eq_nil_iff]
      intro it hit
      by_cases ha : it.available
      · rw [if_pos ha, if_neg (not_lt.mpr (hall it hit ha))]
      · rw [if_neg ha]
    unfold findItem
    rw [hcand, sortByScoreDesc_nil]
  · intro it hit
    cases hsort : sortByScoreDesc ItemCandidate.score (itemCandidates menu s) with
    | nil =>
      rw [findItem_eq_of_sorted_nil hsort] at hit
      exact absurd hit (Option.noConfusion)
    | cons c rest =>
      rw [findItem_eq_of_sorted_cons hsort] at hit ⊢
      have hc : c.item = it := Option.some.inj hit
      have hcmem : c ∈ itemCandidates menu s := by
        have : c ∈ sortByScoreDesc ItemCandidate.score (itemCandidates menu s) := by
          rw [hsort]
          exact List.mem_cons_self c rest
        exact (mem_sortByScoreDesc _).mp this
      obtain ⟨hmem, ha, hsc, hthr⟩ := mem_itemCandidates.mp hcmem
      have hmax := (sortByScoreDesc_head_max hsort).2
      have hbound : ∀ it' ∈ menu.items, it'.available = true →
          itemScore s it' ≤ c.score := by
        intro it' hit' ha'
        by_cases hs' : (3 : ℚ)/10 < itemScore s it'
        · have : (⟨it', itemScore s it'⟩ : ItemCandidate) ∈ itemCandidates menu s :=
            mem_itemCandidates.mpr ⟨hit', ha', rfl, hs'⟩
          exact hmax _ this
        · exact le_trans (not_lt.mp hs') (le_of_lt hthr)
      refine ⟨hc ▸ hmem, hc ▸ ha, by rw [← hc]; exact hsc, hthr, hbound, ?_, ?_, ?_⟩
      · -- first-in-menu-order decomposition
        obtain ⟨preC, postC, hdec, hlt⟩ := sortByScoreDesc_head_first hsort
        obtain ⟨l₁, a, l₂, hitems, hpre, hfa⟩ :=
          filterMap_eq_append_cons _ menu.items preC c postC hdec
        have hac : a = c.item := by
          by_cases haa : a.available
          · rw [if_pos haa] at hfa
            by_cases hsa : (3 : ℚ)/10 < itemScore s a
            · rw [if_pos hsa] at hfa
              have := Option.some.inj hfa
              rw [← this]
            · rw [if_neg hsa] at hfa
              exact absurd hfa (Option.noConfusion)
          · rw [if_neg haa] at hfa
            exact absurd hfa (Option.noConfusion)
        refine ⟨l₁, l₂, by rw [hitems, hac, hc], ?_⟩
        intro it' hit' ha'
        by_cases hs' : (3 : ℚ)/10 < itemScore s it'
        · have hmemf : (⟨it', itemScore s it'⟩ : ItemCandidate) ∈
              l₁.filterMap (fun item =>
                if item.available = true then
                  if 3/10 < itemScore s item then
                    some (⟨item, itemScore s item⟩ : ItemCandidate)
                  else none
                else none) := by
            rw [List.mem_filterMap]
            exact ⟨it', hit', by rw [if_pos ha', if_pos hs']⟩
          rw [hpre] at hmemf
          exact hlt _ hmemf
        · exact lt_of_le_of_lt (not_lt.mp hs') hthr
      · simp only [List.length_map, List.length_take]
        exact min_le_left _ _
      · intro alt halt
        simp only [List.mem_map] at halt
        obtain ⟨ca, hca, haca⟩ := halt
        have hca' : ca ∈ rest := List.mem_of_mem_take hca
        have hcamem := mem_itemCandidates.mp
          ((mem_sortByScoreDesc _).mp (by rw [hsort]; exact List.mem_cons_of_mem c hca'))
        obtain ⟨hm1, hm2, hm3, hm4⟩ := hcamem
        have hle : ca.score ≤ c.score := hmax ca (mem_of_mem_sorted_tail hsort hca')
        exact ⟨haca ▸ hm1, haca ▸ hm2, by rw [← haca, ← hm3]; exact hm4,
          by rw [← haca, ← hm3]; exact hle⟩

lemma findSize_eq_of_sorted_cons {s : String} {item : MenuItem}
    {szs : List MenuItemSize} {c : SizeCandidate} {rest : List SizeCandidate}
    (hszs : item.sizes = some szs) (hne : ¬ szs.isEmpty = true)
    (hsort : sortByScoreDesc SizeCandidate.score
      (szs.map fun sz => SizeCandidate.mk sz (sizeScore s sz)) = c :: rest) :
    findSize s item = ⟨some c.size, c.score, rest.map SizeCandidate.size⟩ := by
  unfold findSize
  simp only [hszs]
  rw [if_neg hne, hsort]

/-- C8: `findSize` returns a vacuous success (`match: none, confidence: 1`,
no alternatives) when the item has no sizes, and otherwise always returns the
best-scoring size (no exclusion threshold, however low the best score is)
with its score as confidence and all remaining sizes as alternatives. -/
theorem findSize_spec (s : String) (item : MenuItem) :
    ((item.sizes = none ∨ item.sizes = some []) → findSize s item = ⟨none, 1, []⟩) ∧
    (∀ szs, item.sizes = some szs → szs ≠ [] →
      ∃ sz ∈ szs, (findSize s item).matched = some sz ∧
        (findSize s item).confidence = sizeScore s sz ∧
        (∀ sz' ∈ szs, sizeScore s sz' ≤ (findSize s item).confidence) ∧
        (findSize s item).alternatives.length = szs.length - 1) := by
  constructor
  · intro h
    rcases h with h | h
    · unfold findSize
      rw [h]
    · unfold findSize
      rw [h]
      rfl
  · intro szs hszs hne
    have hne' : ¬ szs.isEmpty = true := by
      cases szs with
      | nil => exact absurd rfl hne
      | cons a as => simp
    cases hsort : sortByScoreDesc SizeCandidate.score
        (szs.map fun sz => SizeCandidate.mk sz (sizeScore s sz)) with
    | nil =>
      have := sortByScoreDesc_eq_nil hsort
      rw [List.map_eq_nil_iff] at this
      exact absurd this hne
    | cons c rest =>
      rw [findSize_eq_of_sorted_cons hszs hne' hsort]
      have hcmem : c ∈ szs.map fun sz => SizeCandidate.mk sz (sizeScore s sz) := by
        have : c ∈ sortByScoreDesc SizeCandidate.score
            (szs.map fun sz => SizeCandidate.mk sz (sizeScore s sz)) := by
          rw [hsort]
          exact List.mem_cons_self c rest
        exact (mem_sortByScoreDesc _).mp this
      rw [List.mem_map] at hcmem
      obtain ⟨sz, hszmem, hsz⟩ := hcmem
      have hmax := (sortByScoreDesc_head_max hsort).2
      refine ⟨sz, hszmem, ?_, ?_, ?_, ?_⟩
      · rw [← hsz]
      · rw [← hsz]
      · intro sz' hsz'
        have : (⟨sz', sizeScore s sz'⟩ : SizeCandidate) ∈
            szs.map fun sz => SizeCandidate.mk sz (sizeScore s sz) :=
          List.mem_map.mpr ⟨sz', hsz', rfl⟩
        exact hmax _ this
      · have hlen := sortByScoreDesc_length SizeCandidate.score
          (szs.map fun sz => SizeCandidate.mk sz (sizeScore s sz))
        rw [hsort, List.length_cons, List.length_map] at hlen
        simp only [List.length_map]
        omega

lemma findModifiers_acc (menu : Menu) (gids : List String) :
    ∀ (ts : List String) (acc : List ModifierMatch),
      ts.foldl (fun rs t => rs ++ (tryGroupsFirstFit menu t gids).toList) acc =
        acc ++ ts.foldl (fun rs t => rs ++ (tryGroupsFirstFit menu t gids).toList) [] := by
  intro ts
  induction ts with
  | nil =>
    intro acc
    simp
  | cons t ts ih =>
    intro acc
    simp only [List.foldl_cons]
    rw [ih, ih ([] ++ (tryGroupsFirstFit menu t gids).toList)]
    simp [List.append_assoc]

lemma tryGroupsFirstFit_some_spec (menu : Menu) (t : String) :
    ∀ (gids : List String) (e : ModifierMatch),
      tryGroupsFirstFit menu t gids = some e →
      ∃ pre post, gids = pre ++ e.groupId :: post ∧
        (∀ g ∈ pre, (findModifier menu t g).matched = none ∨
          (findModifier menu t g).confidence ≤ 1/2) ∧
        (findModifier menu t e.groupId).matched = some e.modifier ∧
        e.confidence = (findModifier menu t e.groupId).confidence ∧
        1/2 < e.confidence := by
  intro gids
  induction gids with
  | nil =>
    intro e h
    exact absurd h Option.noConfusion
  | cons gid gids ih =>
    intro e h
    unfold tryGroupsFirstFit at h
    cases hm : (findModifier menu t gid).matched with
    | some md =>
      simp only [hm] at h
      by_cases hconf : (1 : ℚ)/2 < (findModifier menu t gid).confidence
      · rw [if_pos hconf] at h
        obtain rfl := Option.some.inj h
        exact ⟨[], gids, by simp, by simp, hm, rfl, hconf⟩
      · rw [if_neg hconf] at h
        obtain ⟨pre, post, hdec, hpre, hm', hc', hgt⟩ := ih e h
        refine ⟨gid :: pre, post, by rw [List.cons_append, hdec], ?_, hm', hc', hgt⟩
        intro g hg
        rcases List.mem_cons.mp hg with rfl | hg'
        · exact Or.inr (not_lt.mp hconf)
        · exact hpre g hg'
    | none =>
      simp only [hm] at h
      obtain ⟨pre, post, hdec, hpre, hm', hc', hgt⟩ := ih e h
      refine ⟨gid :: pre, post, by rw [List.cons_append, hdec], ?_, hm', hc', hgt⟩
      intro g hg
      rcases List.mem_cons.mp hg with rfl | hg'
      · exact Or.inl hm
      · exact hpre g hg'

lemma tryGroupsFirstFit_none_spec (menu : Menu) (t : String) :
    ∀ gids : List String,
      tryGroupsFirstFit menu t gids = none ↔
      ∀ g ∈ gids, (findModifier menu t g).matched = none ∨
        (findModifier menu t g).confidence ≤ 1/2 := by
  intro gids
  induction gids with
  | nil => simp [tryGroupsFirstFit]
  | cons gid gids ih =>
    constructor
    · intro h
      have hgid : (findModifier menu t gid).matched = none ∨
          (findModifier menu t gid).confidence ≤ 1/2 := by
        unfold tryGroupsFirstFit at h
        cases hm : (findModifier menu t gid).matched with
        | some md =>
          simp only [hm] at h
          by_cases hconf : (1 : ℚ)/2 < (findModifier menu t gid).confidence
          · rw [if_pos hconf] at h
            exact absurd h Option.noConfusion
          · exact Or.inr (not_lt.mp hconf)
        | none => exact Or.inl rfl
      have hrest : tryGroupsFirstFit menu t gids = none := by
        unfold tryGroupsFirstFit at h
        cases hm : (findModifier menu t gid).matched with
        | some md =>
          simp only [hm] at h
          by_cases hconf : (1 : ℚ)/2 < (findModifier menu t gid).confidence
          · rw [if_pos hconf] at h
            exact absurd h Option.noConfusion
          · rw [if_neg hconf] at h
            exact h
        | none =>
          simp only [hm] at h
          exact h
      intro g hg
      rcases List.mem_cons.mp hg with rfl | hg'
      · exact hgid
      · exact ih.mp hrest g hg'
    · intro h
      unfold tryGroupsFirstFit
      cases hm : (findModifier menu t gid).matched with
      | some md =>
        have := h gid (List.mem_cons_self gid gids)
        rcases this with h' | h'
        · rw [hm] at h'
          exact absurd h' Option.noConfusion
        · simp only [hm]
          rw [if_neg (not_lt.mpr h')]
          exact ih.mpr (fun g hg => h g (List.mem_cons_of_mem gid hg))
      | none =>
        simp only [hm]
        exact ih.mpr (fun g hg => h g (List.mem_cons_of_mem gid hg))

/-- C5: `findModifiers` processes the spoken phrases in order; for each
phrase it tries the candidate groups in the caller-supplied order and accepts
the first whose `findModifier` confidence exceeds 0.5, trying no further
groups for that phrase; a phrase with no group accepted contributes no
entry. -/
theorem findModifiers_spec (menu : Menu) :
    (∀ gids, findModifiers menu [] gids = []) ∧
    (∀ t ts gids, findModifiers menu (t :: ts) gids =
      (tryGroupsFirstFit menu t gids).toList ++ findModifiers menu ts gids) ∧
    (∀ t gids e, tryGroupsFirstFit menu t gids = some e →
      ∃ pre post, gids = pre ++ e.groupId :: post ∧
        (∀ g ∈ pre, (findModifier menu t g).matched = none ∨
          (findModifier menu t g).confidence ≤ 1/2) ∧
        (findModifier menu t e.groupId).matched = some e.modifier ∧
        e.confidence = (findModifier menu t e.groupId).confidence ∧
        1/2 < e.confidence) ∧
    (∀ t gids, tryGroupsFirstFit menu t gids = none ↔
      ∀ g ∈ gids, (findModifier menu t g).matched = none ∨
        (findModifier menu t g).confidence ≤ 1/2) := by
  refine ⟨fun gids => rfl, ?_, ?_, ?_⟩
  · intro t ts gids
    unfold findModifiers
    simp only [List.foldl_cons, List.nil_append]
    exact findModifiers_acc menu gids ts _
  · intro t gids e h
    exact tryGroupsFirstFit_some_spec menu t gids e h
  · intro t gids
    exact tryGroupsFirstFit_none_spec menu t gids

/-! ## Resolver characterization lemmas -/

lemma resolveItem_eq_of_unmatched {menu : Menu} {v : VoiceOrderItem}
    (h : (findItem menu v.itemName).matched = none) :
    resolveItem menu v = ⟨none, [notFoundMsg v.itemName], []⟩ := by
  unfold resolveItem
  simp only [h]

lemma resolveItem_eq_of_matched {menu : Menu} {v : VoiceOrderItem} {menuItem : MenuItem}
    (h : (findItem menu v.itemName).matched = some menuItem) :
    resolveItem menu v =
      ⟨some ⟨menuItem.id, menuItem.name, (resolveSizePart v menuItem).sizeId,
          (resolveSizePart v menuItem).sizeName, qtyOrOne v.quantity,
          (modifierMatchesOf menu v menuItem).foldl (fun p m => p + m.modifier.price)
            (menuItem.basePrice + (resolveSizePart v menuItem).adjustment),
          (modifierMatchesOf menu v menuItem).map (fun m =>
            ResolvedModifier.mk m.modifier.id m.modifier.name m.modifier.price),
          v.specialInstructions⟩,
        [],
        (if (findItem menu v.itemName).confidence < 7/10 then
          [lowConfidenceMsg v.itemName menuItem.name (findItem menu v.itemName).confidence]
         else []) ++ (resolveSizePart v menuItem).warnings ++
        (match v.modifiers, menuItem.modifierGroups with
         | some _, some groupIds =>
            requiredGroupWarnings menu menuItem (modifierMatchesOf menu v menuItem) groupIds
         | _, _ => [])⟩ := by
  unfold resolveItem
  simp only [h]

lemma resolveItem_errors_of_matched {menu : Menu} {v : VoiceOrderItem}
    {menuItem : MenuItem} (h : (findItem menu v.itemName).matched = some menuItem) :
    (resolveItem menu v).errors = [] := by
  rw [resolveItem_eq_of_matched h]

lemma resolveItem_resolved_none_iff {menu : Menu} {v : VoiceOrderItem} :
    (resolveItem menu v).resolved = none ↔ (findItem menu v.itemName).matched = none := by
  cases h : (findItem menu v.itemName).matched with
  | none => rw [resolveItem_eq_of_unmatched h]; simp
  | some menuItem =>
    rw [resolveItem_eq_of_matched h]
    simp

lemma findSize_matched_mem {s : String} {item : MenuItem} {szs : List MenuItemSize}
    {sz : MenuItemSize} (hszs : item.sizes = some szs)
    (h : (findSize s item).matched = some sz) : sz ∈ szs := by
  cases szs with
  | nil =>
    have hfs : findSize s item = ⟨none, 1, []⟩ := by
      unfold findSize
      simp [hszs]
    rw [hfs] at h
    exact absurd h Option.noConfusion
  | cons a as =>
    have hne : ¬ (a :: as).isEmpty = true := by simp
    cases hsort : sortByScoreDesc SizeCandidate.score
        ((a :: as).map fun z => SizeCandidate.mk z (sizeScore s z)) with
    | nil =>
      have := sortByScoreDesc_eq_nil hsort
      simp at this
    | cons c rest =>
      rw [findSize_eq_of_sorted_cons hszs hne hsort] at h
      have hc : c.size = sz := Option.some.inj h
      have hcm : c ∈ (a :: as).map fun z => SizeCandidate.mk z (sizeScore s z) := by
        have : c ∈ sortByScoreDesc SizeCandidate.score
            ((a :: as).map fun z => SizeCandidate.mk z (sizeScore s z)) := by
          rw [hsort]
          exact List.mem_cons_self c rest
        exact (mem_sortByScoreDesc _).mp this
      rw [List.mem_map] at hcm
      obtain ⟨z, hz, hzc⟩ := hcm
      rw [← hc, ← hzc]
      exact hz

lemma resolveSizePart_spec (v : VoiceOrderItem) (menuItem : MenuItem) :
    ((resolveSizePart v menuItem).sizeId = none ∧
      (resolveSizePart v menuItem).adjustment = 0) ∨
    (∃ szs sz, menuItem.sizes = some szs ∧ sz ∈ szs ∧
      (resolveSizePart v menuItem).sizeId = some sz.id ∧
      (resolveSizePart v menuItem).sizeName = some sz.name ∧
      (resolveSizePart v menuItem).adjustment = sz.priceAdjustment) := by
  unfold resolveSizePart
  cases hs : menuItem.sizes with
  | none => exact Or.inl ⟨rfl, rfl⟩
  | some szs =>
    cases szs with
    | nil => exact Or.inl ⟨rfl, rfl⟩
    | cons sz0 rest =>
      dsimp only
      by_cases ht : strTruthy v.size = true
      · rw [if_pos ht]
        cases hm : (findSize (v.size.getD "") menuItem).matched with
        | some sz =>
          exact Or.inr ⟨sz0 :: rest, sz, rfl, findSize_matched_mem hs hm, rfl, rfl, rfl⟩
        | none =>
          exact Or.inr ⟨sz0 :: rest, sz0, rfl, List.mem_cons_self sz0 rest, rfl, rfl, rfl⟩
      · rw [if_neg ht]
        exact Or.inr ⟨sz0 :: rest, sz0, rfl, List.mem_cons_self sz0 rest, rfl, rfl, rfl⟩

lemma foldl_add_modifier_price :
    ∀ (l : List ModifierMatch) (q : ℚ),
      l.foldl (fun p m => p + m.modifier.price) q =
        q + (l.map (fun m => m.modifier.price)).sum := by
  intro l
  induction l with
  | nil =>
    intro q
    simp
  | cons x xs ih =>
    intro q
    simp only [List.foldl_cons, List.map_cons, List.sum_cons]
    rw [ih]
    ring

lemma foldl_add_extended :
    ∀ (l : List OrderLine) (q : ℚ),
      l.foldl (fun sum line => sum + line.extendedAmount) q =
        q + (l.map OrderLine.extendedAmount).sum := by
  intro l
  induction l with
  | nil =>
    intro q
    simp
  | cons x xs ih =>
    intro q
    simp only [List.foldl_cons, List.map_cons, List.sum_cons]
    rw [ih]
    ring

lemma qtyOrOne_default (q : Option Nat) (h : q = none ∨ q = some 0) : qtyOrOne q = 1 := by
  rcases h with rfl | rfl <;> rfl

lemma qtyOrOne_pos (n : Nat) (h : n ≠ 0) : qtyOrOne (some n) = n := by
  cases n with
  | zero => exact absurd rfl h
  | succ k => rfl

lemma buildLine_extended (item : ResolvedItem) :
    (buildLine item).extendedAmount =
      (buildLine item).unitPrice * ((buildLine item).quantity.value : ℚ) := rfl

lemma build_order_eq {menu : Menu} {o : VoiceOrder} {ord : CreateOrderRequest}
    (h : (build menu o).order = some ord) :
    ord = builtOrder menu o ∧ resolvedItemsOf menu o ≠ [] := by
  unfold build at h
  by_cases he : (resolvedItemsOf menu o).isEmpty = true
  · rw [if_pos he] at h
    exact absurd h Option.noConfusion
  · rw [if_neg he] at h
    refine ⟨(Option.some.inj h).symm, ?_⟩
    intro hnil
    rw [hnil] at he
    exact he rfl

/-- C1: for every voice item that resolves, the resolved `unitPrice` is the
matched item's `basePrice` plus the chosen size's `priceAdjustment` (0 when
no size was chosen) plus the sum of the accepted modifier prices, and the
quantity defaults to 1 exactly when the spoken quantity is absent or zero;
for every built order, each line's `extendedAmount` is `unitPrice ×
quantity`, the `TaxExcluded` total is the sum of the lines'
`extendedAmount`s, the tax amount is that subtotal × 0.13, and the `Net`
total is subtotal + tax (exact rational equalities, hence within the 1e-6
tolerance of the specification). -/
theorem pricing_spec (menu : Menu) :
    (∀ v r, (resolveItem menu v).resolved = some r →
      (∃ menuItem, (findItem menu v.itemName).matched = some menuItem ∧
        ((r.sizeId = none ∧
            r.unitPrice = menuItem.basePrice + 0 +
              (r.modifiers.map ResolvedModifier.price).sum) ∨
         (∃ szs sz, menuItem.sizes = some szs ∧ sz ∈ szs ∧ r.sizeId = some sz.id ∧
            r.unitPrice = menuItem.basePrice + sz.priceAdjustment +
              (r.modifiers.map ResolvedModifier.price).sum))) ∧
      ((v.quantity = none ∨ v.quantity = some 0) → r.quantity = 1) ∧
      (∀ n, v.quantity = some n → n ≠ 0 → r.quantity = n)) ∧
    (∀ o ord, (build menu o).order = some ord →
      (∀ line ∈ ord.orderLines,
        line.extendedAmount = line.unitPrice * (line.quantity.value : ℚ)) ∧
      (∃ st, st = (ord.orderLines.map OrderLine.extendedAmount).sum ∧
        ord.totals.find? (fun t => t.type == "TaxExcluded") = some ⟨"TaxExcluded", st⟩ ∧
        ord.totals.find? (fun t => t.type == "Net") = some ⟨"Net", st + st * (13/100)⟩ ∧
        ord.taxes.map TaxEntry.amount = [st * (13/100)])) := by
  constructor
  · intro v r hr
    cases hm : (findItem menu v.itemName).matched with
    | none =>
      rw [resolveItem_eq_of_unmatched hm] at hr
      exact absurd hr Option.noConfusion
    | some menuItem =>
      rw [resolveItem_eq_of_matched hm] at hr
      have hrec := Option.some.inj hr
      rw [← hrec]
      have hprice : (modifierMatchesOf menu v menuItem).foldl
          (fun p m => p + m.modifier.price)
          (menuItem.basePrice + (resolveSizePart v menuItem).adjustment) =
          menuItem.basePrice + (resolveSizePart v menuItem).adjustment +
            (((modifierMatchesOf menu v menuItem).map (fun m =>
              ResolvedModifier.mk m.modifier.id m.modifier.name m.modifier.price)).map
                ResolvedModifier.price).sum := by
        rw [foldl_add_modifier_price, List.map_map]
        rfl
      refine ⟨⟨menuItem, rfl, ?_⟩, fun h => qtyOrOne_default v.quantity h,
        fun n hn h0 => by rw [hn]; exact qtyOrOne_pos n h0⟩
      rcases resolveSizePart_spec v menuItem with ⟨hid, hadj⟩ | ⟨szs, sz, hszs, hmem, hid, _, hadj⟩
      · refine Or.inl ⟨hid, ?_⟩
        simp only
        rw [hprice, hadj]
      · refine Or.inr ⟨szs, sz, hszs, hmem, hid, ?_⟩
        simp only
        rw [hprice, hadj]
  · intro o ord hord
    obtain ⟨hEq, _⟩ := build_order_eq hord
    rw [hEq]
    constructor
    · intro line hline
      unfold builtOrder buildOrderLines at hline
      simp only [List.mem_map] at hline
      obtain ⟨item, _, hi⟩ := hline
      rw [← hi]
      exact buildLine_extended item
    · refine ⟨buildSubtotal menu o, ?_, ?_, ?_, ?_⟩
      · unfold builtOrder buildSubtotal
        rw [foldl_add_extended, zero_add]
      · unfold builtOrder
        simp [List.find?]
      · unfold builtOrder buildTaxAmount taxRate
        have h1 : ("TaxExcluded" == "Net") = false := by decide
        have h2 : ("Net" == "Net") = true := by decide
        simp only [List.find?, h1, h2]
      · unfold builtOrder
        simp [buildTaxAmount, taxRate]

/-! ## Warning-message disjointness and further builder lemmas -/

lemma sizeMsg_ne_lowConfMsg (a b c d : String) (q : ℚ) :
    sizeNotFoundMsg a b ≠ lowConfidenceMsg c d q := by
  intro h
  have h2 := congrArg String.data h
  unfold sizeNotFoundMsg lowConfidenceMsg at h2
  simp only [String.data_append] at h2
  simp at h2

lemma sizeMsg_ne_requiredMsg (a b c d : String) :
    sizeNotFoundMsg a b ≠ requiredGroupMsg c d := by
  intro h
  have h2 := congrArg String.data h
  unfold sizeNotFoundMsg requiredGroupMsg at h2
  simp only [String.data_append] at h2
  simp at h2

lemma mem_requiredGroupWarnings {menu : Menu} {menuItem : MenuItem}
    {accepted : List ModifierMatch} {gids : List String} {w : String}
    (h : w ∈ requiredGroupWarnings menu menuItem accepted gids) :
    ∃ gname, w = requiredGroupMsg gname menuItem.name := by
  unfold requiredGroupWarnings at h
  rw [List.mem_filterMap] at h
  obtain ⟨gid, hgid, hf⟩ := h
  cases hg : getModifierGroup menu gid with
  | none =>
    simp only [hg] at hf
    exact absurd hf Option.noConfusion
  | some g =>
    simp only [hg] at hf
    by_cases hreq : g.required = true
    · rw [if_pos hreq] at hf
      by_cases hany : accepted.any (fun m => m.groupId == gid) = true
      · rw [if_pos hany] at hf
        exact absurd hf Option.noConfusion
      · rw [if_neg hany] at hf
        exact ⟨g.name, (Option.some.inj hf).symm⟩
    · rw [if_neg hreq] at hf
      exact absurd hf Option.noConfusion

lemma requiredGroupWarnings_mem {menu : Menu} {menuItem : MenuItem}
    {accepted : List ModifierMatch} {gids : List String} {gid : String}
    {g : ModifierGroup} (hgid : gid ∈ gids) (hg : getModifierGroup menu gid = some g)
    (hreq : g.required = true) (hno : ∀ mm ∈ accepted, mm.groupId ≠ gid) :
    requiredGroupMsg g.name menuItem.name ∈
      requiredGroupWarnings menu menuItem accepted gids := by
  unfold requiredGroupWarnings
  rw [List.mem_filterMap]
  refine ⟨gid, hgid, ?_⟩
  simp only [hg]
  rw [if_pos hreq, if_neg ?_]
  intro hany
  rw [List.any_eq_true] at hany
  obtain ⟨mm, hmm, hbeq⟩ := hany
  exact hno mm hmm (by simpa using hbeq)

lemma resolveItem_errors_eq_nil_of_isSome {menu : Menu} {v : VoiceOrderItem}
    (h : ((resolveItem menu v).resolved).isSome = true) :
    (resolveItem menu v).errors = [] := by
  cases hm : (findItem menu v.itemName).matched with
  | none =>
    rw [resolveItem_eq_of_unmatched hm] at h
    simp at h
  | some it => exact resolveItem_errors_of_matched hm

lemma resolvedItemsOf_eq_nil {menu : Menu} {o : VoiceOrder}
    (h : ∀ v ∈ o.items, (resolveItem menu v).resolved = none) :
    resolvedItemsOf menu o = [] := by
  unfold resolvedItemsOf buildResults
  rw [List.filterMap_eq_nil_iff]
  intro rr hrr
  rw [List.mem_map] at hrr
  obtain ⟨v, hv, hvr⟩ := hrr
  rw [← hvr]
  exact h v hv

lemma build_eq_fail {menu : Menu} {o : VoiceOrder} (h : resolvedItemsOf menu o = []) :
    build menu o = ⟨false, none,
      buildErrors menu o ++ ["No valid items in order"], buildWarnings menu o⟩ := by
  unfold build
  rw [h]
  rfl

lemma build_eq_succ {menu : Menu} {o : VoiceOrder} (h : resolvedItemsOf menu o ≠ []) :
    build menu o = ⟨true, some (builtOrder menu o), buildErrors menu o,
      buildWarnings menu o⟩ := by
  unfold build
  rw [if_neg (fun he => h (List.isEmpty_iff.mp he))]

lemma resolvedItemsOf_length (menu : Menu) (items : List VoiceOrderItem) :
    ((items.map (resolveItem menu)).filterMap ResolveResult.resolved).length =
      (items.filter (fun v => ((resolveItem menu v).resolved).isSome)).length := by
  induction items with
  | nil => rfl
  | cons v vs ih =>
    simp only [List.map_cons, List.filter_cons]
    cases hr : (resolveItem menu v).resolved with
    | none =>
      rw [List.filterMap_cons_none hr]
      simp only [hr, Option.isSome_none, Bool.false_eq_true, if_false]
      exact ih
    | some r =>
      rw [List.filterMap_cons_some hr]
      simp only [hr, Option.isSome_some, if_true, List.length_cons]
      rw [ih]

lemma buildErrors_eq_nil {menu : Menu} {o : VoiceOrder}
    (h : ∀ v ∈ o.items, ((resolveItem menu v).resolved).isSome = true) :
    buildErrors menu o = [] := by
  unfold buildErrors buildResults
  rw [List.flatten_eq_nil_iff]
  intro l hl
  rw [List.mem_map] at hl
  obtain ⟨rr, hrr, hrl⟩ := hl
  rw [List.mem_map] at hrr
  obtain ⟨v, hv, hvr⟩ := hrr
  rw [← hrl, ← hvr]
  exact resolveItem_errors_eq_nil_of_isSome (h v hv)

lemma mem_buildWarnings {menu : Menu} {o : VoiceOrder} {v : VoiceOrderItem} {w : String}
    (hv : v ∈ o.items) (hw : w ∈ (resolveItem menu v).warnings) :
    w ∈ buildWarnings menu o := by
  unfold buildWarnings buildResults
  rw [List.mem_flatten]
  refine ⟨(resolveItem menu v).warnings, ?_, hw⟩
  rw [List.mem_map]
  exact ⟨resolveItem menu v, List.mem_map.mpr ⟨v, hv, rfl⟩, rfl⟩

/-- C3 (amended): resolving a voice item whose name matches nothing above
threshold yields no resolved item and exactly the one error
`Could not find menu item: "<name>"` — the name is quoted inside the message
— with no warnings; every order line of a built order comes from a
successfully resolved item (an unresolved line contributes zero lines); and
when no line resolves, `build` fails with no order document and
`"No valid items in order"` appended to the accumulated errors. -/
theorem notFound_spec (menu : Menu) :
    (∀ v, (findItem menu v.itemName).matched = none →
      resolveItem menu v = ⟨none, [notFoundMsg v.itemName], []⟩) ∧
    (∀ o ord, (build menu o).order = some ord →
      ord.orderLines.length =
        (o.items.filter (fun v => ((resolveItem menu v).resolved).isSome)).length) ∧
    (∀ o, (∀ v ∈ o.items, (resolveItem menu v).resolved = none) →
      build menu o = ⟨false, none,
        buildErrors menu o ++ ["No valid items in order"], buildWarnings menu o⟩) := by
  refine ⟨fun v h => resolveItem_eq_of_unmatched h, ?_, ?_⟩
  · intro o ord hord
    obtain ⟨hEq, _⟩ := build_order_eq hord
    rw [hEq]
    unfold builtOrder buildOrderLines
    simp only [List.length_map]
    unfold resolvedItemsOf buildResults
    exact resolvedItemsOf_length menu o.items
  · intro o h
    exact build_eq_fail (resolvedItemsOf_eq_nil h)

/-- C4: for an item whose `sizes` list is non-empty, resolving a voice item
with no `size` field yields the item's first declared size (id and name
recorded, its `priceAdjustment` added to the unit price) and emits no
size-related warning. -/
theorem default_size_spec (menu : Menu) (v : VoiceOrderItem) (menuItem : MenuItem)
    (sz0 : MenuItemSize) (rest : List MenuItemSize)
    (hnone : v.size = none)
    (hm : (findItem menu v.itemName).matched = some menuItem)
    (hszs : menuItem.sizes = some (sz0 :: rest)) :
    ∃ r, (resolveItem menu v).resolved = some r ∧
      r.sizeId = some sz0.id ∧ r.sizeName = some sz0.name ∧
      r.unitPrice = menuItem.basePrice + sz0.priceAdjustment +
        (r.modifiers.map ResolvedModifier.price).sum ∧
      (∀ a b, sizeNotFoundMsg a b ∉ (resolveItem menu v).warnings) := by
  have hsp : resolveSizePart v menuItem =
      ⟨some sz0.id, some sz0.name, sz0.priceAdjustment, []⟩ := by
    unfold resolveSizePart
    simp only [hszs]
    rw [if_neg (by rw [hnone]; simp [strTruthy])]
  rw [resolveItem_eq_of_matched hm]
  refine ⟨_, rfl, ?_, ?_, ?_, ?_⟩
  · simp only [hsp]
  · simp only [hsp]
  · simp only
    rw [foldl_add_modifier_price, List.map_map, hsp]
    rfl
  · intro a b hmem
    simp only [hsp, List.append_nil] at hmem
    rw [List.mem_append] at hmem
    rcases hmem with hmem | hmem
    · by_cases hc : (findItem menu v.itemName).confidence < 7/10
      · rw [if_pos hc] at hmem
        rw [List.mem_singleton] at hmem
        exact sizeMsg_ne_lowConfMsg a b v.itemName menuItem.name
          (findItem menu v.itemName).confidence hmem
      · rw [if_neg hc] at hmem
        exact absurd hmem (List.not_mem_nil _)
    · cases hvm : v.modifiers with
      | none =>
        simp only [hvm] at hmem
        exact absurd hmem (List.not_mem_nil _)
      | some texts =>
        cases hmg : menuItem.modifierGroups with
        | none =>
          simp only [hvm, hmg] at hmem
          exact absurd hmem (List.not_mem_nil _)
        | some gids =>
          simp only [hvm, hmg] at hmem
          obtain ⟨gname, hgn⟩ := mem_requiredGroupWarnings hmem
          exact sizeMsg_ne_requiredMsg a b gname menuItem.name hgn

/-- C7 (amended): when the voice item's `modifiers` field is present (even
empty) and the matched item's `modifierGroups` field is present, every
required group with no accepted modifier yields a warning naming the group
and never an error, and the line still resolves; and when every line of a
non-empty order resolves, `build` succeeds with an empty error list, one
order line per voice item, and every per-line warning — in particular the
required-group warning — in the build warnings. -/
theorem required_group_spec (menu : Menu) :
    (∀ v menuItem texts gids gid g,
      (findItem menu v.itemName).matched = some menuItem →
      v.modifiers = some texts →
      menuItem.modifierGroups = some gids →
      gid ∈ gids →
      getModifierGroup menu gid = some g →
      g.required = true →
      (∀ mm ∈ findModifiers menu texts gids, mm.groupId ≠ gid) →
      (requiredGroupMsg g.name menuItem.name ∈ (resolveItem menu v).warnings ∧
        (resolveItem menu v).errors = [] ∧
        ((resolveItem menu v).resolved).isSome = true)) ∧
    (∀ o, o.items ≠ [] →
      (∀ v ∈ o.items, ((resolveItem menu v).resolved).isSome = true) →
      ((build menu o).success = true ∧
        (build menu o).errors = [] ∧
        (∃ ord, (build menu o).order = some ord ∧
          ord.orderLines.length = o.items.length) ∧
        (∀ v ∈ o.items, ∀ w ∈ (resolveItem menu v).warnings,
          w ∈ (build menu o).warnings))) := by
  constructor
  · intro v menuItem texts gids gid g hm hvm hmg hgid hg hreq hno
    rw [resolveItem_eq_of_matched hm]
    refine ⟨?_, rfl, rfl⟩
    simp only [hvm, hmg]
    rw [List.mem_append]
    refine Or.inr ?_
    refine requiredGroupWarnings_mem hgid hg hreq ?_
    intro mm hmm
    unfold modifierMatchesOf at hmm
    simp only [hvm, hmg] at hmm
    exact hno mm hmm
  · intro o hne hall
    have hritems : resolvedItemsOf menu o ≠ [] := by
      intro hnil
      have hlen := resolvedItemsOf_length menu o.items
      unfold resolvedItemsOf buildResults at hnil
      rw [hnil] at hlen
      have hfilter : (o.items.filter
          (fun v => ((resolveItem menu v).resolved).isSome)) = o.items :=
        List.filter_eq_self.mpr hall
      rw [hfilter] at hlen
      cases hi : o.items with
      | nil => exact hne hi
      | cons a as =>
        rw [hi] at hlen
        simp at hlen
    rw [build_eq_succ hritems]
    refine ⟨rfl, buildErrors_eq_nil hall, ⟨builtOrder menu o, rfl, ?_⟩, ?_⟩
    · unfold builtOrder buildOrderLines
      simp only [List.length_map]
      unfold resolvedItemsOf buildResults
      rw [resolvedItemsOf_length menu o.items, List.filter_eq_self.mpr hall]
    · intro v hv w hw
      exact mem_buildWarnings hv hw

/-- C9: `build` is a deterministic pure function of the menu snapshot and
the voice order: two calls on equal inputs produce identical
`CreateOrderRequest` outputs (the embedding of `build` is a pure function;
the source computes no timestamps, randomness or mutable state inside it). -/
theorem build_deterministic (menu₁ menu₂ : Menu) (o₁ o₂ : VoiceOrder)
    (hm : menu₁ = menu₂) (ho : o₁ = o₂) :
    build menu₁ o₁ = build menu₂ o₂ ∧
    (build menu₁ o₁).order = (build menu₂ o₂).order := by
  subst hm
  subst ho
  exact ⟨rfl, rfl⟩

/-! ## C10 support: similarity on phrases whose normalization is empty -/

lemma similarity_ge_of_empty_norm {s : String} (t : String) (hs : normalize s = []) :
    9/10 ≤ similarity s t := by
  unfold similarity
  dsimp only
  by_cases h : normalize s = normalize t
  · rw [if_pos h]
    norm_num
  · rw [if_neg h, if_pos (Or.inr (by rw [hs]; exact List.nil_infix))]

lemma similarity_eq_of_empty_norm {s t : String} (hs : normalize s = [])
    (ht : normalize t ≠ []) : similarity s t = 9/10 := by
  unfold similarity
  dsimp only
  rw [if_neg (fun h => ht (h.symm.trans hs)),
    if_pos (Or.inr (by rw [hs]; exact List.nil_infix))]

lemma foldl_best_ge (s : String) :
    ∀ (l : List String) (q : ℚ),
      q ≤ l.foldl
        (fun best al => if best < similarity s al then similarity s al else best) q := by
  intro l
  induction l with
  | nil =>
    intro q
    simp
  | cons al als ih =>
    intro q
    simp only [List.foldl_cons]
    by_cases h : q < similarity s al
    · rw [if_pos h]
      exact le_trans (le_of_lt h) (ih (similarity s al))
    · rw [if_neg h]
      exact ih q

lemma foldl_best_const (s : String) :
    ∀ (l : List String) (q : ℚ), (∀ al ∈ l, similarity s al ≤ q) →
      l.foldl
        (fun best al => if best < similarity s al then similarity s al else best) q = q := by
  intro l
  induction l with
  | nil =>
    intro q _
    rfl
  | cons al als ih =>
    intro q h
    simp only [List.foldl_cons]
    rw [if_neg (not_lt.mpr (h al (List.mem_cons_self al als)))]
    exact ih q (fun al' h' => h al' (List.mem_cons_of_mem al h'))

lemma le_bestScoreOf (s name : String) (aliases : List String) :
    similarity s name ≤ bestScoreOf s name aliases :=
  foldl_best_ge s aliases (similarity s name)

lemma bestScoreOf_const {s name : String} {aliases : List String} {q : ℚ}
    (hn : similarity s name = q) (ha : ∀ al ∈ aliases, similarity s al ≤ q) :
    bestScoreOf s name aliases = q := by
  unfold bestScoreOf
  rw [hn]
  exact foldl_best_const s aliases q ha

lemma itemScore_ge_of_empty_norm {s : String} (hs : normalize s = []) (it : MenuItem) :
    9/10 ≤ itemScore s it :=
  le_trans (similarity_ge_of_empty_norm it.name hs) (le_bestScoreOf s it.name it.aliases)

lemma itemScore_eq_of_empty_norm {s : String} (hs : normalize s = [])
    {it : MenuItem} (hn : normalize it.name ≠ [])
    (hal : ∀ al ∈ it.aliases, normalize al ≠ []) :
    itemScore s it = 9/10 :=
  bestScoreOf_const (similarity_eq_of_empty_norm hs hn)
    (fun al hal' => le_of_eq (similarity_eq_of_empty_norm hs (hal al hal')))

/-- C10 (amended): a phrase whose normalization is empty has similarity at
least 0.9 to every string (the equality branch gives 1 when both normalize
empty, the containment branch gives 0.9 otherwise), so `findItem` scores
every available item at ≥ 0.9 and returns a match; and — provided no
available item's own name or alias normalizes to the empty string, which the
counterexample shows is needed — the match is the first available item in
menu order. -/
theorem empty_norm_spec (menu : Menu) (s : String) (hs : normalize s = []) :
    (∀ t, 9/10 ≤ similarity s t) ∧
    (∀ it ∈ menu.items, it.available = true → 9/10 ≤ itemScore s it) ∧
    ((∀ it ∈ menu.items, it.available = true → normalize it.name ≠ [] ∧
        ∀ al ∈ it.aliases, normalize al ≠ []) →
      ∀ pre it0 post, menu.items = pre ++ it0 :: post →
        (∀ x ∈ pre, x.available = false) → it0.available = true →
        (findItem menu s).matched = some it0) := by
  refine ⟨fun t => similarity_ge_of_empty_norm t hs,
    fun it _ _ => itemScore_ge_of_empty_norm hs it, ?_⟩
  intro hnn pre it0 post hitems hpre havail
  have hit0mem : it0 ∈ menu.items := by
    rw [hitems]
    exact List.mem_append_right pre (List.mem_cons_self it0 post)
  obtain ⟨hn0, hal0⟩ := hnn it0 hit0mem havail
  have hsc0 : itemScore s it0 = 9/10 := itemScore_eq_of_empty_norm hs hn0 hal0
  have hthr : (3 : ℚ)/10 < itemScore s it0 := by
    rw [hsc0]
    norm_num
  have hcand : itemCandidates menu s =
      (⟨it0, itemScore s it0⟩ : ItemCandidate) ::
        post.filterMap (fun item =>
          if item.available = true then
            if 3/10 < itemScore s item then
              some (⟨item, itemScore s item⟩ : ItemCandidate)
            else none
          else none) := by
    unfold itemCandidates
    rw [hitems, List.filterMap_append]
    have h1 : pre.filterMap (fun item =>
        if item.available = true then
          if 3/10 < itemScore s item then
            some (⟨item, itemScore s item⟩ : ItemCandidate)
          else none
        else none) = [] := by
      rw [List.filterMap_eq_nil_iff]
      intro x hx
      rw [if_neg (by rw [hpre x hx]; exact Bool.false_ne_true)]
    rw [h1, List.nil_append,
      List.filterMap_cons_some (by rw [if_pos havail, if_pos hthr])]
  cases hsort : sortByScoreDesc ItemCandidate.score (itemCandidates menu s) with
  | nil =>
    rw [sortByScoreDesc_eq_nil hsort] at hcand
    exact absurd hcand.symm (List.cons_ne_nil _ _)
  | cons c rest' =>
    rw [findItem_eq_of_sorted_cons hsort]
    have hh := sortByScoreDesc_head ItemCandidate.score
      (⟨it0, itemScore s it0⟩ : ItemCandidate)
      (post.filterMap (fun item =>
        if item.available = true then
          if 3/10 < itemScore s item then
            some (⟨item, itemScore s item⟩ : ItemCandidate)
          else none
        else none))
    rw [← hcand, hsort] at hh
    have hc : c = firstMaxAcc ItemCandidate.score
        (⟨it0, itemScore s it0⟩ : ItemCandidate)
        (post.filterMap (fun item =>
          if item.available = true then
            if 3/10 < itemScore s item then
              some (⟨item, itemScore s item⟩ : ItemCandidate)
            else none
          else none)) := by
      simpa using hh
    have hall : ∀ x ∈ post.filterMap (fun item =>
        if item.available = true then
          if 3/10 < itemScore s item then
            some (⟨item, itemScore s item⟩ : ItemCandidate)
          else none
        else none),
        ItemCandidate.score x ≤
          ItemCandidate.score (⟨it0, itemScore s it0⟩ : ItemCandidate) := by
      intro x hx
      have hxmem : x ∈ itemCandidates menu s := by
        rw [hcand]
        exact List.mem_cons_of_mem _ hx
      obtain ⟨hxm, hxa, hxs, _⟩ := mem_itemCandidates.mp hxmem
      obtain ⟨hxn, hxal⟩ := hnn x.item hxm hxa
      have hx9 : itemScore s x.item = 9/10 := itemScore_eq_of_empty_norm hs hxn hxal
      simp only
      rw [hxs, hx9, hsc0]
    rw [hc, firstMaxAcc_of_all_le ItemCandidate.score _ _ hall]

/-! ## Concrete fixtures (a small menu in the style of the repository's
`allstar-menu` data) used by the witnesses and counterexamples -/

def wingSizes : List MenuItemSize :=
  [⟨"s1", "1 lb", ["one pound"], 0⟩, ⟨"s2", "2 lb", ["two pounds", "2 pounds"], 16⟩]

def sauceGroup : ModifierGroup :=
  ⟨"sauce", "Sauce", true, 1, 1,
    [⟨"hg", "Honey Garlic", ["honey"], 0⟩, ⟨"bbq", "BBQ", [], 1⟩]⟩

def wingItem : MenuItem :=
  { id := "w1", name := "Original Wings", aliases := ["wings"], description := "",
    category := "wings", basePrice := 14, sizes := some wingSizes,
    modifierGroups := some ["sauce"], available := true }

def wingMenu : Menu :=
  { restaurantId := "r1", restaurantName := "AllStar", categories := ["wings"],
    items := [wingItem], modifierGroups := [sauceGroup], updatedAt := "" }

def vWings : VoiceOrderItem :=
  { itemName := "wings", quantity := some 1, size := some "2 pounds",
    modifiers := some ["honey garlic"], specialInstructions := none }

def vPoutine : VoiceOrderItem :=
  { itemName := "poutine", quantity := some 1, size := none, modifiers := none,
    specialInstructions := none }

def vWingsNoMods : VoiceOrderItem :=
  { itemName := "wings", quantity := some 1, size := none, modifiers := none,
    specialInstructions := none }

def vWingsEmptyMods : VoiceOrderItem :=
  { itemName := "wings", quantity := some 1, size := none, modifiers := some [],
    specialInstructions := none }

def baseCustomer : VoiceCustomer := ⟨"Bob", "555-0100", none⟩

def orderWings : VoiceOrder :=
  { orderType := OrderType.pickup, items := [vWings], customer := baseCustomer,
    deliveryAddress := none, specialInstructions := none, scheduledTime := none }

def orderPoutine : VoiceOrder :=
  { orderType := OrderType.pickup, items := [vPoutine], customer := baseCustomer,
    deliveryAddress := none, specialInstructions := none, scheduledTime := none }

def mmHoney : ModifierMatch := ⟨"sauce", ⟨"hg", "Honey Garlic", ["honey"], 0⟩, 1⟩

def plainItem : MenuItem :=
  { id := "p1", name := "Burger", aliases := [], description := "",
    category := "mains", basePrice := 8, sizes := none, modifierGroups := none,
    available := true }

def bangItem : MenuItem :=
  { id := "p2", name := "Weird", aliases := ["!!!"], description := "",
    category := "mains", basePrice := 9, sizes := none, modifierGroups := none,
    available := true }

def emptyNormMenu : Menu :=
  { restaurantId := "r2", restaurantName := "R", categories := [],
    items := [plainItem, bangItem], modifierGroups := [], updatedAt := "" }

/-! ## Counterexamples -/

/-- C3 counterexample: the not-found error quotes the item name.  For
Scenario B the errors list holds `Could not find menu item: "poutine"`
(quotes included), so the unquoted string the claim asserts to be in the
list is not in it. -/
theorem notFound_message_counterexample :
    (build wingMenu orderPoutine).success = false ∧
    (build wingMenu orderPoutine).errors =
      ["Could not find menu item: \"poutine\"", "No valid items in order"] ∧
    "Could not find menu item: poutine" ∉ (build wingMenu orderPoutine).errors := by
  decide!

/-- C7 counterexample: a voice item with no `modifiers` field resolves
against an item referencing the required group `sauce`, no accepted modifier
belongs to that group, and yet no warning at all is emitted — the required
check runs only inside the `voiceItem.modifiers && menuItem.modifierGroups`
block. -/
theorem required_group_counterexample :
    wingItem.modifierGroups = some ["sauce"] ∧
    getModifierGroup wingMenu "sauce" = some sauceGroup ∧
    sauceGroup.required = true ∧
    (findItem wingMenu vWingsNoMods.itemName).matched = some wingItem ∧
    ((resolveItem wingMenu vWingsNoMods).resolved.map ResolvedItem.modifiers) = some [] ∧
    (resolveItem wingMenu vWingsNoMods).warnings = [] ∧
    (resolveItem wingMenu vWingsNoMods).errors = [] := by
  decide!

/-- C10 counterexample: on the phrase `"???"` (empty normalization) the
first available item in menu order is `plainItem`, but `findItem` returns
`bangItem`, whose alias `"!!!"` also normalizes to the empty string and
scores 1.0 against the equality branch, beating the 0.9 containment score of
every other item. -/
theorem empty_norm_counterexample :
    normalize "???" = [] ∧
    emptyNormMenu.items.head? = some plainItem ∧
    plainItem.available = true ∧
    (findItem emptyNormMenu "???").matched = some bangItem ∧
    bangItem ≠ plainItem := by
  decide!

/-! ## Witnesses -/

theorem pricing_spec_witness :
    (build wingMenu orderWings).order = some (builtOrder wingMenu orderWings) ∧
    (∃ st, st = ((builtOrder wingMenu orderWings).orderLines.map
        OrderLine.extendedAmount).sum ∧
      (builtOrder wingMenu orderWings).totals.find? (fun t => t.type == "TaxExcluded") =
        some ⟨"TaxExcluded", st⟩ ∧
      (builtOrder wingMenu orderWings).totals.find? (fun t => t.type == "Net") =
        some ⟨"Net", st + st * (13/100)⟩ ∧
      (builtOrder wingMenu orderWings).taxes.map TaxEntry.amount = [st * (13/100)]) :=
  ⟨by decide!, ((pricing_spec wingMenu).2 orderWings (builtOrder wingMenu orderWings)
    (by decide!)).2⟩

theorem findItem_spec_witness :
    (findItem wingMenu "wings").matched = some wingItem ∧
    (wingItem ∈ wingMenu.items ∧ wingItem.available = true ∧
      (findItem wingMenu "wings").confidence = itemScore "wings" wingItem ∧
      3/10 < (findItem wingMenu "wings").confidence) := by
  refine ⟨by decide!, ?_⟩
  have h := (findItem_spec wingMenu "wings").2 wingItem (by decide!)
  exact ⟨h.1, h.2.1, h.2.2.1, h.2.2.2.1⟩

theorem notFound_spec_witness :
    (findItem wingMenu vPoutine.itemName).matched = none ∧
    resolveItem wingMenu vPoutine = ⟨none, [notFoundMsg vPoutine.itemName], []⟩ :=
  ⟨by decide!, (notFound_spec wingMenu).1 vPoutine (by decide!)⟩

theorem default_size_spec_witness :
    vWingsNoMods.size = none ∧
    (findItem wingMenu vWingsNoMods.itemName).matched = some wingItem ∧
    (∃ r, (resolveItem wingMenu vWingsNoMods).resolved = some r ∧
      r.sizeId = some "s1" ∧ r.sizeName = some "1 lb") := by
  refine ⟨rfl, by decide!, ?_⟩
  obtain ⟨r, h1, h2, h3, _, _⟩ := default_size_spec wingMenu vWingsNoMods wingItem
    ⟨"s1", "1 lb", ["one pound"], 0⟩ [⟨"s2", "2 lb", ["two pounds", "2 pounds"], 16⟩]
    rfl (by decide!) rfl
  exact ⟨r, h1, h2, h3⟩

theorem findModifiers_spec_witness :
    tryGroupsFirstFit wingMenu "honey garlic" ["sauce"] = some mmHoney ∧
    ((findModifier wingMenu "honey garlic" mmHoney.groupId).matched =
        some mmHoney.modifier ∧
      1/2 < mmHoney.confidence) := by
  refine ⟨by decide!, ?_⟩
  obtain ⟨pre, post, _, _, h3, _, h5⟩ :=
    (findModifiers_spec wingMenu).2.2.1 "honey garlic" ["sauce"] mmHoney (by decide!)
  exact ⟨h3, h5⟩

theorem required_group_spec_witness :
    (findItem wingMenu vWingsEmptyMods.itemName).matched = some wingItem ∧
    (requiredGroupMsg sauceGroup.name wingItem.name ∈
        (resolveItem wingMenu vWingsEmptyMods).warnings ∧
      (resolveItem wingMenu vWingsEmptyMods).errors = [] ∧
      ((resolveItem wingMenu vWingsEmptyMods).resolved).isSome = true) := by
  refine ⟨by decide!, ?_⟩
  exact (required_group_spec wingMenu).1 vWingsEmptyMods wingItem [] ["sauce"] "sauce"
    sauceGroup (by decide!) rfl rfl (by decide!) (by decide!) rfl (by decide!)

theorem findSize_spec_witness :
    wingItem.sizes = some wingSizes ∧
    (∃ sz ∈ wingSizes, (findSize "2 pounds" wingItem).matched = some sz ∧
      (findSize "2 pounds" wingItem).confidence = sizeScore "2 pounds" sz) := by
  refine ⟨rfl, ?_⟩
  obtain ⟨sz, h1, h2, h3, _, _⟩ :=
    (findSize_spec "2 pounds" wingItem).2 wingSizes rfl (by decide!)
  exact ⟨sz, h1, h2, h3⟩

theorem build_deterministic_witness :
    build wingMenu orderWings = build wingMenu orderWings ∧
    (build wingMenu orderWings).order = (build wingMenu orderWings).order :=
  build_deterministic wingMenu wingMenu orderWings orderWings rfl rfl

theorem empty_norm_spec_witness :
    normalize "???" = [] ∧ (findItem wingMenu "???").matched = some wingItem := by
  refine ⟨by decide!, ?_⟩
  exact (empty_norm_spec wingMenu "???" (by decide!)).2.2 (by decide!) [] wingItem []
    rfl (by decide!) rfl

end Aloha
